import Mathlib

/-!
Verification development for the wind-farm cellular-automaton projection
model (`CA_Model_Code.py`).  The definitions below shallowly embed the
parts of the source the claims are about: the coefficient-evolution loop,
the composite-score field calculation, the per-step allocation loop with
its early-abort condition, the neighborhood-effect factor computations
(initial full scan and per-step incremental update), and the
quantity/allocation disagreement computation.
-/

namespace WindCA

/-- Answer to the console prompts "Would you like to switch off the
constraints? Y or N" and "Would you like to switch off the neighborhood
effects? Y or N".  In the source these are the strings `"Y"` and `"N"`
stored in `ConstraintNeighborhood.ConstYesNo` / `NeighYesNo`; note that
the answer `Y` means the subsystem is switched OFF and `N` means it is
left ON. -/
inductive YN where
  | y
  | n
deriving DecidableEq, Repr

/-! ## Coefficient Evolution Engine (lines 3272-3292)

For each predictor the loop reads the previous five-year coefficient and
the user delta `Coeff_Change_(%)`:

* `> 0`: `new = c + abs(c*(delta/100))`
* `< 0`: `new = c - abs(c*(delta/100))`
* `= 0`: `new = c`.

`evolveStep` is that per-predictor update; `coeffSeq c delta t` is the
coefficient after `t` five-year updates (`t = 0` is the fitted 2020
value). -/

def evolveStep {K : Type} [LinearOrderedField K] (c delta : K) : K :=
  if delta > 0 then c + |c * (delta / 100)|
  else if delta < 0 then c - |c * (delta / 100)|
  else c

def coeffSeq {K : Type} [LinearOrderedField K] (c delta : K) : Nat → K
  | 0 => c
  | t + 1 => evolveStep (coeffSeq c delta t) delta

/-- Per-configuration coefficient table: one `(coefficient, delta)` row per
predictor (the columns `Coeff_20xx` and `Coeff_Change_(%)` of `dfCoeffs`),
plus the single fitted intercept `interceptList[g]`, which is stored
outside the table. -/
structure CoeffState where
  rows : List (ℝ × ℝ)
  intercept : ℝ

/-- One pass of the `for h in range(6)` body: every predictor row is
updated by `evolveStep`; nothing touches the intercept. -/
noncomputable def evolveAll (s : CoeffState) : CoeffState :=
  { rows := s.rows.map (fun r => (evolveStep r.1 r.2, r.2)), intercept := s.intercept }

/-! ## Probability Engine (lines 3544-3549) -/

/-- Dot product `sum(coeff[0:n]*dfArray[cell][0:n])`. -/
noncomputable def dotList (coeffs xs : List ℝ) : ℝ :=
  (List.zipWith (· * ·) coeffs xs).sum

/-- `prob = 1/(1+e**-(interceptList[g] + sum(coeff*x)))`. -/
noncomputable def prob (intercept : ℝ) (coeffs xs : List ℝ) : ℝ :=
  1 / (1 + Real.exp (-(intercept + dotList coeffs xs)))

/-- Probability of a cell at time step `t`: the coefficients are the
`t`-times-evolved column of `dfCoeffs`, while the intercept argument is
`interceptList[g]` itself, read fresh every step. -/
noncomputable def probAtStep (s : CoeffState) (t : Nat) (xs : List ℝ) : ℝ :=
  prob s.intercept ((evolveAll^[t] s).rows.map Prod.fst) xs

/-! ## Composite score (lines 3581-3604)

The `CalculateField` expression for `Probab_20xx` outside the cold-start
branch.  The four `if` tests on `(NeighYesNo, ConstYesNo)` are mutually
exclusive over `{Y,N}`, so they are rendered as a chain; `eligibility` is
the cell's `Constraint` field (0/1), `neighborhood` the cell's current
neighborhood-effect factor field (`Neighborhood` on the 2025 step,
`Neighb_Update` afterwards), `probab` the cell's `Probab` field. -/
noncomputable def compositeScore (neighYesNo constYesNo : YN)
    (eligibility neighborhood probab : ℝ) : ℝ :=
  if neighYesNo = YN.y ∧ constYesNo = YN.n then eligibility * probab
  else if neighYesNo = YN.n ∧ constYesNo = YN.y then neighborhood * probab
  else if neighYesNo = YN.y ∧ constYesNo = YN.y then probab
  else eligibility * neighborhood * probab

/-- Cold-start branch (first step with fewer than two existing wind farms,
lines 3573-3578): the neighborhood factor is excluded outright. -/
noncomputable def coldStartScore (constYesNo : YN) (eligibility probab : ℝ) : ℝ :=
  if constYesNo = YN.y then probab
  else eligibility * probab

/-! ## Allocation Step and Simulation Loop (lines 3606-3683, 3932-3945) -/

/-- `Wind_Turb_Fut` entry of a grid cell: `"N"` is `nc`, `"Y"` (wind farm
existing prior to the run) is `existing`, and `"Y (timeSteps[t])"` (cell
converted at step `t`) is `conv t`. -/
inductive CState where
  | nc
  | existing
  | conv (t : Nat)
deriving DecidableEq

/-- Matches the selections `Wind_Turb_Fut LIKE '%Y%'` and the membership
test `"Y" in row2[0]`. -/
def CState.isY : CState → Bool
  | .nc => false
  | _ => true

/-- One row of the attribute table as the allocation loop sees it:
`TARGET_FID`, the `Constraint` field (1 eligible, 0 prohibited), and the
current `Wind_Turb_Fut` state. -/
structure ACell where
  tfid : Nat
  constraintVal : ℚ
  state : CState
deriving DecidableEq

/-- The comparison realised by `arcpy.Sort_management(noFarm, ...,
[[fieldName, "DESCENDING"]])`: `a` may precede `b` iff `a`'s composite
score is at least `b`'s. -/
def descBy (key : Nat → ℚ) (a b : ACell) : Prop :=
  key b.tfid ≤ key a.tfid

instance (key : Nat → ℚ) : DecidableRel (descBy key) :=
  fun a b => inferInstanceAs (Decidable (key b.tfid ≤ key a.tfid))

instance (key : Nat → ℚ) : IsTotal ACell (descBy key) :=
  ⟨fun a b => le_total (key b.tfid) (key a.tfid)⟩

instance (key : Nat → ℚ) : IsTrans ACell (descBy key) :=
  ⟨fun _ _ _ h1 h2 => le_trans h2 h1⟩

/-- Descending sort of the unconverted cells by the step's composite
score (`Probab_20xx` field).  The source leaves the order of equal
scores to the incidental row order; the model is the stable insertion
sort, which keeps input order on ties. -/
def sortDesc (key : Nat → ℚ) (l : List ACell) : List ACell :=
  l.insertionSort (descBy key)

/-- The conversion cursor over `cellsToConvert` when the constraints are
on (`ConstYesNo == "N"`, lines 3648-3663): rows are converted in order
until one with `Constraint == 0` is reached, at which point `abortScript`
is set and the cursor loop breaks.  Returns the `TARGET_FID`s of the
rows converted and the `abortScript` flag. -/
def convertLoop : List ACell → List Nat × Bool
  | [] => ([], false)
  | c :: cs =>
    if c.constraintVal = 0 then ([], true)
    else
      let r := convertLoop cs
      (c.tfid :: r.1, r.2)

/-- The selection `Wind_Turb_Fut = 'N'`: the not-yet-converted pool of
the surface (line 3607). -/
def pool (cells : List ACell) : List ACell :=
  cells.filter (fun c => decide (c.state = CState.nc))

/-- `cellNoList` and `abortScript` of one step: the pool is sorted
descending by composite score, the rows with `OBJECTID <=
gridCellsChanged` of the sorted copy form `cellsToConvert`, and the
conversion cursor walks them — aborting at a `Constraint == 0` row when
the constraints are on, converting unconditionally when they are off
(lines 3607-3673). -/
def convertedIds (constOn : Bool) (key : Nat → ℚ) (quota : Nat)
    (cells : List ACell) : List Nat × Bool :=
  let window := (sortDesc key (pool cells)).take quota
  if constOn then convertLoop window else (window.map (·.tfid), false)

/-- One time step of the cellular automaton: compute the conversions and
write them back to the surface (lines 3678-3683), reporting the
`abortScript` flag (only meaningful when the constraints are on). -/
def stepOnce (constOn : Bool) (key : Nat → ℚ) (quota : Nat) (t : Nat)
    (cells : List ACell) : List ACell × Bool :=
  let r := convertedIds constOn key quota cells
  (cells.map (fun c => if c.tfid ∈ r.1 then { c with state := CState.conv t } else c),
    constOn && r.2)

/-- The `for f in range(len(timeSteps))` loop with the `break` of lines
3937-3945: run at most `fuel` more steps starting from step index `t`;
the flag of the result records whether the loop broke early.  `scoreAt t`
is the composite-score column `Probab_<timeSteps[t]>` recomputed by the
Probability Engine for step `t`. -/
def runSteps (constOn : Bool) (scoreAt : Nat → Nat → ℚ) (quota : Nat) :
    Nat → Nat → List ACell → List ACell × Bool
  | _, 0, cells => (cells, false)
  | t, fuel + 1, cells =>
    let r := stepOnce constOn (scoreAt t) quota t cells
    if r.2 then (r.1, true) else runSteps constOn scoreAt quota (t + 1) fuel r.1

/-- `Wind_Turb_Fut` of the cell with the given `TARGET_FID`. -/
def stateOf (cells : List ACell) (id : Nat) : Option CState :=
  (cells.find? (fun c => c.tfid == id)).map (·.state)

/-- What `Sort_management DESCENDING` guarantees about its output: scores
never increase along the list (ties in arbitrary order). -/
def SortedDesc (key : Nat → ℚ) (l : List ACell) : Prop :=
  l.Pairwise (descBy key)

/-- Number of eligible (`Constraint` nonzero) cells of a list. -/
def eligibleCount (l : List ACell) : Nat :=
  (l.filter (fun c => decide (c.constraintVal ≠ 0))).length

/-! ## Neighborhood Effect Tracker (lines 1741-1772 and 3857-3926) -/

/-- A grid cell as the neighborhood computations see it: `TARGET_FID`,
centroid coordinates, and the wind-farm state (`Wind_Turb` during the
initial scan, `Wind_Turb_Fut` during the incremental updates). -/
structure GCell where
  tfid : Nat
  x : ℚ
  y : ℚ
  state : CState
deriving DecidableEq

/-- `HAVE_THEIR_CENTER_IN` within the search radius: squared centroid
distance at most `d2`, the square of `distance *
int(ConstraintNeighborhood.neighborhoodSize)`. -/
def withinDist (d2 : ℚ) (a b : GCell) : Bool :=
  decide ((a.x - b.x) ^ 2 + (a.y - b.y) ^ 2 ≤ d2)

/-- `SelectLayerByLocation(lyr, "HAVE_THEIR_CENTER_IN", c, radius)`: the
cells of the layer whose centers lie within the radius of `c`; this
includes `c` itself whenever `c` is in the layer. -/
def ball (lyr : List GCell) (d2 : ℚ) (c : GCell) : List GCell :=
  lyr.filter (withinDist d2 c)

/-- Initial full-scan factor of one grid cell (lines 1741-1772): the
neighbors are selected from the whole surface (`present_Copy_lyr`),
`totalNeighbors` is the selection count minus the central cell, wind
farms are counted by `Wind_Turb == "Y"` excluding the central cell, and
`totalNeighbors = 0` is guarded to give factor 0 (isolated cells, e.g.
small islands). -/
def initFactor (cells : List GCell) (d2 : ℚ) (g : GCell) : ℚ :=
  let adjacent := ball cells d2 g
  let totalNeighbors : Nat := adjacent.length - 1
  let windFarmCount :=
    (adjacent.filter (fun m => decide (m.state = CState.existing ∧ m.tfid ≠ g.tfid))).length
  if 0 < totalNeighbors then (windFarmCount : ℚ) / totalNeighbors else 0

/-- Factor written by one pass of the sub-cursor of the incremental
update (lines 3886-3906): the neighbors of `n` are re-queried from
`adjacent_lyr` — the selection around the newly converted cell — not from
the full surface, and the division `windFarmCount/totalNeighbors` is NOT
guarded: a zero `totalNeighbors` raises `ZeroDivisionError`, modelled as
`Except.error`. -/
def updateFactorFor (adjacent : List GCell) (d2 : ℚ) (n : GCell) :
    Except Unit (Nat × ℚ) :=
  let neighbors := ball adjacent d2 n
  let totalNeighbors : Nat := neighbors.length - 1
  let windFarmCount :=
    (neighbors.filter (fun m => m.state.isY && decide (m.tfid ≠ n.tfid))).length
  if totalNeighbors = 0 then Except.error ()
  else Except.ok (n.tfid, (windFarmCount : ℚ) / totalNeighbors)

/-- The sub-cursor loop of lines 3886-3912: every row of the `adjacent`
selection gets a recomputed factor; a raised `ZeroDivisionError` aborts
the whole run. -/
def updateOver (adjacent : List GCell) (d2 : ℚ) :
    List GCell → Except Unit (List (Nat × ℚ))
  | [] => Except.ok []
  | n :: rest =>
    match updateFactorFor adjacent d2 n with
    | Except.error e => Except.error e
    | Except.ok p =>
      match updateOver adjacent d2 rest with
      | Except.error e => Except.error e
      | Except.ok ps => Except.ok (p :: ps)

/-- The outer cursor of lines 3861-3912: each cell whose `Wind_Turb_Fut`
equals `"Y (timeSteps[t])"` contributes the recomputed factors of its
radius selection. -/
def convertedPass (cells : List GCell) (d2 : ℚ) :
    List GCell → Except Unit (List (Nat × ℚ))
  | [] => Except.ok []
  | c :: rest =>
    match updateOver (ball cells d2 c) d2 (ball cells d2 c) with
    | Except.error e => Except.error e
    | Except.ok ps =>
      match convertedPass cells d2 rest with
      | Except.error e => Except.error e
      | Except.ok qs => Except.ok (ps ++ qs)

/-- The `(gridCellList, neighborhoodList)` pairs accumulated by one call
of `neighborhoodEffects()` at step `t` (lines 3857-3912): for every cell
whose `Wind_Turb_Fut` equals `"Y (timeSteps[t])"`, its radius selection
`adjacent` is formed from the merged surface, and every cell of that
selection gets a factor recomputed against `adjacent` only. -/
def updatePairs (cells : List GCell) (d2 : ℚ) (t : Nat) :
    Except Unit (List (Nat × ℚ)) :=
  convertedPass cells d2 (cells.filter (fun c => decide (c.state = CState.conv t)))

/-- Fraction of converted neighbors over the cell's own FULL neighbor set
(every other cell of the surface within the search radius), evaluated on
the current `Wind_Turb_Fut` states: the quantity the claim says the
incremental update maintains.  It is the initial scan's formula with the
full surface as the search layer and `LIKE '%Y%'` as the wind-farm
test. -/
def fullNbrFraction (cells : List GCell) (d2 : ℚ) (n : GCell) : ℚ :=
  let adjacent := ball cells d2 n
  let totalNeighbors : Nat := adjacent.length - 1
  let windFarmCount :=
    (adjacent.filter (fun m => m.state.isY && decide (m.tfid ≠ n.tfid))).length
  if 0 < totalNeighbors then (windFarmCount : ℚ) / totalNeighbors else 0

/-! ## Disagreement Quantifier (lines 4016-4270)

`cnt k j` is the number of cells the null configuration classifies into
bucket `k` and the target configuration into bucket `j` (buckets 0..6 =
`No Farm`, `Y (2025)`, ..., `Y (2050)`); only indices below 7 are ever
read.  `listOfLists` is the 8x8 matrix `[listNo, list2025, ...,
list2050, bottomRow]` of the source, and `transList` its transpose. -/

def rowSum (cnt : Nat → Nat → ℚ) (k : Nat) : ℚ :=
  ∑ j ∈ Finset.range 7, cnt k j

def colSum (cnt : Nat → Nat → ℚ) (j : Nat) : ℚ :=
  ∑ k ∈ Finset.range 7, cnt k j

def totalCells (cnt : Nat → Nat → ℚ) : ℚ :=
  ∑ k ∈ Finset.range 7, rowSum cnt k

def listOfLists (cnt : Nat → Nat → ℚ) (k j : Nat) : ℚ :=
  if k < 7 then (if j < 7 then cnt k j else rowSum cnt k)
  else (if j < 7 then colSum cnt j else totalCells cnt)

def transList (cnt : Nat → Nat → ℚ) (i j : Nat) : ℚ :=
  listOfLists cnt j i

def bottomRow (cnt : Nat → Nat → ℚ) (j : Nat) : ℚ :=
  listOfLists cnt 7 j

/-- `quantDis` of lines 4239-4242: the seven terms
`abs(bottomRow[k]-transList[k][7])`, halved. -/
def quantDis (cnt : Nat → Nat → ℚ) : ℚ :=
  (∑ k ∈ Finset.range 7, |bottomRow cnt k - transList cnt k 7|) / 2

/-- `quantDisStar` of lines 4244-4255: sum of rows 0..5 of `transList`
over columns 0..6, minus the sum of columns 0..5 over rows 0..6, in
absolute value. -/
def quantDisStar (cnt : Nat → Nat → ℚ) : ℚ :=
  |(∑ i ∈ Finset.range 6, ∑ j ∈ Finset.range 7, transList cnt i j) -
    (∑ j ∈ Finset.range 6, ∑ i ∈ Finset.range 7, transList cnt i j)|

/-- `absoDis` of lines 4258-4261. -/
def absoDis (cnt : Nat → Nat → ℚ) : ℚ :=
  (∑ k ∈ Finset.range 7,
    2 * min (bottomRow cnt k - transList cnt k k) (transList cnt k 7 - transList cnt k k)) / 2

/-- Reported quantity disagreement (lines 4263-4270). -/
def qFinal (cnt : Nat → Nat → ℚ) : ℚ :=
  if quantDis cnt ≠ quantDisStar cnt then quantDisStar cnt else quantDis cnt

/-- Reported allocation disagreement (lines 4263-4270). -/
def aFinal (cnt : Nat → Nat → ℚ) : ℚ :=
  if quantDis cnt ≠ quantDisStar cnt then absoDis cnt + |quantDis cnt - quantDisStar cnt|
  else absoDis cnt

/-- Quantity disagreement as the claim states it: half the sum, over the
seven buckets, of the absolute difference between the bucket's row total
and its column total. -/
def specQuantityDis (cnt : Nat → Nat → ℚ) : ℚ :=
  (∑ k ∈ Finset.range 7, |rowSum cnt k - colSum cnt k|) / 2

/-! ## Concrete instances used to settle the claims -/

/-- Contingency counts with a single cell the null configuration leaves
unconverted (bucket 0) and the target configuration converts in 2050
(bucket 6); all other entries zero. -/
def cntA : Nat → Nat → ℚ :=
  fun k j => if k = 0 ∧ j = 6 then 1 else 0

/-- Contingency counts with a single cell the null configuration converts
in 2050 (bucket 6) and the target configuration leaves unconverted
(bucket 0); all other entries zero. -/
def cntB : Nat → Nat → ℚ :=
  fun k j => if k = 6 ∧ j = 0 then 1 else 0

/-- Three unconverted cells of an allocation step with the constraints
and neighborhood effects both on: cell 1 is eligible with a positive
score, cell 2 is prohibited (score 0), cell 3 is eligible but has
neighborhood factor 0 and hence composite score 0. -/
def exCells : List ACell :=
  [⟨1, 1, CState.nc⟩, ⟨2, 0, CState.nc⟩, ⟨3, 1, CState.nc⟩]

/-- Composite scores of `exCells`: only cell 1 scores above zero. -/
def exKey : Nat → ℚ :=
  fun id => if id = 1 then 5 else 0

/-- Five cells in a row, centroids one unit apart; with squared search
radius 1 each interior cell neighbors exactly its two adjacent cells.
Cell 3 has just been converted at step 0; nothing else is converted. -/
def lineCells : List GCell :=
  [⟨1, 0, 0, CState.nc⟩, ⟨2, 1, 0, CState.nc⟩, ⟨3, 2, 0, CState.conv 0⟩,
    ⟨4, 3, 0, CState.nc⟩, ⟨5, 4, 0, CState.nc⟩]

/-- An isolated cell (nearest other cell 10 units away, squared radius 1)
before the run, with no wind farm anywhere. -/
def isoInit : List GCell :=
  [⟨1, 0, 0, CState.nc⟩, ⟨2, 10, 0, CState.nc⟩]

/-- The same two cells after the isolated cell 1 gained a wind farm at
step 0 of the automaton. -/
def isoRun : List GCell :=
  [⟨1, 0, 0, CState.conv 0⟩, ⟨2, 10, 0, CState.nc⟩]

/-! # Theorems -/

/-- Claim C1, counterexample: with both the constraints and the
neighborhood effects enabled (`ConstYesNo = NeighYesNo = "N"`), the field
expression of line 3590 or 3603 is `!Constraint!*!Neighborhood!*!Probab!`,
not `!Probab!` alone: a prohibited cell with neighborhood factor 0 and
probability 1/2 scores 0, not 1/2 as the claim's table says. -/
theorem compositeScore_bothOn_ne_p :
    compositeScore YN.n YN.n 0 0 (1 / 2) = 0 ∧ (0 : ℝ) ≠ 1 / 2 := by
  constructor
  · simp [compositeScore]
  · norm_num

/-- Claim C1, amended: outside the cold-start exception the composite
score is `eligibility * neighborhood * p` when both subsystems are
enabled, `eligibility * p` when only the constraints are enabled,
`neighborhood * p` when only the neighborhood effects are enabled, and
`p` alone when both are disabled: the claim's table has its first and
last rows swapped. -/
theorem compositeScore_rule_table (e nf p : ℝ) :
    compositeScore YN.n YN.n e nf p = e * nf * p ∧
    compositeScore YN.y YN.n e nf p = e * p ∧
    compositeScore YN.n YN.y e nf p = nf * p ∧
    compositeScore YN.y YN.y e nf p = p := by
  refine ⟨?_, ?_, ?_, ?_⟩ <;> simp [compositeScore]

/-- Claim C2, counterexample: for `c₀ = 1` and `δ = -10` the code
computes `c₁ = c₀ - abs(c₀*(δ/100)) = 0.9`, while the claim's literal
formula `c₁ = c₀ - |c₀|·δ/100` evaluates to `1.1`. -/
theorem coeffSeq_negDelta_counterexample :
    coeffSeq (1 : ℚ) (-10) 1 = 9 / 10 ∧
    (1 : ℚ) - |(1 : ℚ)| * (-10) / 100 = 11 / 10 ∧
    (9 / 10 : ℚ) ≠ 11 / 10 := by
  refine ⟨?_, by norm_num, by norm_num⟩
  show evolveStep (1 : ℚ) (-10) = 9 / 10
  unfold evolveStep
  rw [if_neg (by norm_num), if_pos (by norm_num), abs_of_nonpos (by norm_num)]
  norm_num

/-- Claim C2, amended: the evolved sequence satisfies `cₜ = c₀` when
`δ = 0`, `cₜ = c_{t-1} + |c_{t-1}|·δ/100` when `δ > 0`, and
`cₜ = c_{t-1} - |c_{t-1}|·(-δ)/100` (subtracting the magnitude of the
shift) when `δ < 0`; the worked example `c₀ = -5, δ = 10` gives exactly
`-4.5`, `-4.05`, `-3.645`. -/
theorem coeffSeq_evolution (c delta : ℚ) :
    (delta = 0 → ∀ t, coeffSeq c delta t = c) ∧
    (0 < delta → ∀ t, coeffSeq c delta (t + 1) =
      coeffSeq c delta t + |coeffSeq c delta t| * delta / 100) ∧
    (delta < 0 → ∀ t, coeffSeq c delta (t + 1) =
      coeffSeq c delta t - |coeffSeq c delta t| * (-delta) / 100) ∧
    (coeffSeq (-5 : ℚ) 10 1 = -(9 / 2) ∧ coeffSeq (-5 : ℚ) 10 2 = -(81 / 20) ∧
      coeffSeq (-5 : ℚ) 10 3 = -(729 / 200)) := by
  have e1 : coeffSeq (-5 : ℚ) 10 1 = -(9 / 2) := by
    show evolveStep (-5 : ℚ) 10 = -(9 / 2)
    unfold evolveStep
    rw [if_pos (by norm_num), abs_of_nonpos (by norm_num)]
    norm_num
  have e2 : coeffSeq (-5 : ℚ) 10 2 = -(81 / 20) := by
    show evolveStep (coeffSeq (-5 : ℚ) 10 1) 10 = -(81 / 20)
    rw [e1]
    unfold evolveStep
    rw [if_pos (by norm_num), abs_of_nonpos (by norm_num)]
    norm_num
  have e3 : coeffSeq (-5 : ℚ) 10 3 = -(729 / 200) := by
    show evolveStep (coeffSeq (-5 : ℚ) 10 2) 10 = -(729 / 200)
    rw [e2]
    unfold evolveStep
    rw [if_pos (by norm_num), abs_of_nonpos (by norm_num)]
    norm_num
  refine ⟨?_, ?_, ?_, e1, e2, e3⟩
  · intro h t
    subst h
    induction t with
    | zero => rfl
    | succ t ih =>
      show evolveStep (coeffSeq c 0 t) 0 = c
      rw [ih]
      unfold evolveStep
      norm_num
  · intro h t
    show evolveStep (coeffSeq c delta t) delta = _
    unfold evolveStep
    rw [if_pos h, abs_mul, abs_of_pos (div_pos h (by norm_num))]
    ring
  · intro h t
    show evolveStep (coeffSeq c delta t) delta = _
    unfold evolveStep
    rw [if_neg (by simp only [gt_iff_lt, not_lt]; exact h.le), if_pos h, abs_mul,
      abs_of_neg (div_neg_of_neg_of_pos h (by norm_num))]
    ring

/-- Claim C2, witness: the three conditional clauses of
`coeffSeq_evolution`, each at a concrete input. -/
theorem coeffSeq_evolution_witness :
    coeffSeq (3 : ℚ) 0 5 = 3 ∧
    coeffSeq (2 : ℚ) 10 (0 + 1) =
      coeffSeq (2 : ℚ) 10 0 + |coeffSeq (2 : ℚ) 10 0| * 10 / 100 ∧
    coeffSeq (2 : ℚ) (-50) (0 + 1) =
      coeffSeq (2 : ℚ) (-50) 0 - |coeffSeq (2 : ℚ) (-50) 0| * (-(-50)) / 100 :=
  ⟨(coeffSeq_evolution 3 0).1 rfl 5,
    (coeffSeq_evolution 2 10).2.1 (by norm_num) 0,
    (coeffSeq_evolution 2 (-50)).2.2.1 (by norm_num) 0⟩

/-- Claim C6, code bug: the implemented quantity disagreement subtracts
each bucket's column total from itself (`transList[k][7]` is
`bottomRow[k]`), so it evaluates to 0 even on a table whose row and
column totals differ: on `cntA` the claim's formula
`½·Σ|rowTotal − colTotal|` gives 1 while the code computes 0. -/
theorem quantDis_eval_cntA :
    quantDis cntA = 0 ∧ specQuantityDis cntA = 1 ∧ (0 : ℚ) ≠ 1 := by
  refine ⟨?_, ?_, by norm_num⟩
  · have htb : ∀ k, transList cntA k 7 = bottomRow cntA k := fun _ => rfl
    simp [quantDis, htb, sub_self]
  · norm_num [specQuantityDis, rowSum, colSum, cntA, Finset.sum_range_succ]

/-- Claim C10: the primary quantity-disagreement expression is
identically zero because each of its seven terms is
`|bottomRow[k] - transList[k][7]|` with `transList[k][7] = bottomRow[k]`;
hence whenever the alternative formula is nonzero the `Q ≠ Q*` branch
fires, `Q*` is reported, and the allocation disagreement is inflated by
exactly `Q*`. -/
theorem quantDis_identically_zero (cnt : Nat → Nat → ℚ) :
    (∀ k, transList cnt k 7 = bottomRow cnt k) ∧
    quantDis cnt = 0 ∧
    (quantDisStar cnt ≠ 0 →
      qFinal cnt = quantDisStar cnt ∧
      aFinal cnt = absoDis cnt + quantDisStar cnt) := by
  have htb : ∀ k, transList cnt k 7 = bottomRow cnt k := fun _ => rfl
  have hq : quantDis cnt = 0 := by
    simp [quantDis, htb, sub_self]
  refine ⟨htb, hq, ?_⟩
  intro hstar
  have hne : quantDis cnt ≠ quantDisStar cnt := by
    rw [hq]
    exact fun h => hstar h.symm
  have hsnn : 0 ≤ quantDisStar cnt := by
    unfold quantDisStar
    exact abs_nonneg _
  constructor
  · unfold qFinal
    rw [if_pos hne]
  · unfold aFinal
    rw [if_pos hne, hq, zero_sub, abs_neg, abs_of_nonneg hsnn]

/-- Claim C10, witness: on `cntB` the alternative formula gives 1 ≠ 0,
the mismatch branch fires, and the allocation disagreement is inflated
by exactly that value. -/
theorem quantDis_identically_zero_witness :
    quantDisStar cntB ≠ 0 ∧
    (qFinal cntB = quantDisStar cntB ∧
      aFinal cntB = absoDis cntB + quantDisStar cntB) :=
  ⟨by norm_num [quantDisStar, transList, listOfLists, rowSum, colSum, totalCells, cntB,
      Finset.sum_range_succ],
    (quantDis_identically_zero cntB).2.2
      (by norm_num [quantDisStar, transList, listOfLists, rowSum, colSum, totalCells, cntB,
        Finset.sum_range_succ])⟩

/-- Claim C9: coefficient evolution acts only on the predictor rows of
the coefficient table — the intercept of the evolved table equals the
base fitted intercept after any number of five-year updates, and the
probability engine's step-`t` formula uses that unchanged intercept. -/
theorem intercept_never_modified (s : CoeffState) (t : Nat) (xs : List ℝ) :
    (evolveAll^[t] s).intercept = s.intercept ∧
    probAtStep s t xs =
      prob ((evolveAll^[t] s).intercept) ((evolveAll^[t] s).rows.map Prod.fst) xs := by
  have h : ∀ n, (evolveAll^[n] s).intercept = s.intercept := by
    intro n
    induction n with
    | zero => rfl
    | succ n ih =>
      rw [Function.iterate_succ_apply']
      exact ih
  refine ⟨h t, ?_⟩
  unfold probAtStep
  rw [h t]

/-- Claim C8: the logistic probability lies strictly between 0 and 1,
and the composite score — under every combination of the constraint and
neighborhood switches, cold-start branch included — lies in [0, 1],
given that the `Constraint` field is 0/1-valued and the neighborhood
factor lies in [0, 1]. -/
theorem score_bounds (intercept : ℝ) (coeffs xs : List ℝ) (nYN cYN : YN)
    (e nf : ℝ) (he : e = 0 ∨ e = 1) (hnf0 : 0 ≤ nf) (hnf1 : nf ≤ 1) :
    (0 < prob intercept coeffs xs ∧ prob intercept coeffs xs < 1) ∧
    (0 ≤ compositeScore nYN cYN e nf (prob intercept coeffs xs) ∧
      compositeScore nYN cYN e nf (prob intercept coeffs xs) ≤ 1) ∧
    (0 ≤ coldStartScore cYN e (prob intercept coeffs xs) ∧
      coldStartScore cYN e (prob intercept coeffs xs) ≤ 1) := by
  have hexp : 0 < Real.exp (-(intercept + dotList coeffs xs)) := Real.exp_pos _
  have hp0 : 0 < prob intercept coeffs xs := by
    unfold prob
    positivity
  have hp1 : prob intercept coeffs xs < 1 := by
    unfold prob
    rw [div_lt_one (by positivity)]
    linarith
  refine ⟨⟨hp0, hp1⟩, ?_, ?_⟩
  · rcases he with he | he <;> subst he <;>
      unfold compositeScore <;> split_ifs <;> constructor <;>
      nlinarith [mul_nonneg hnf0 hp0.le, mul_le_one₀ hnf1 hp0.le hp1.le]
  · rcases he with he | he <;> subst he <;>
      unfold coldStartScore <;> split_ifs <;> constructor <;>
      nlinarith [mul_nonneg hnf0 hp0.le, mul_le_one₀ hnf1 hp0.le hp1.le]

/-- Claim C8, witness: the bounds at intercept 0, an empty predictor
vector, both subsystems on, an eligible cell with neighborhood factor
one half. -/
theorem score_bounds_witness :
    (0 < prob 0 [] [] ∧ prob 0 [] [] < 1) ∧
    (0 ≤ compositeScore YN.n YN.n 1 (1 / 2) (prob 0 [] []) ∧
      compositeScore YN.n YN.n 1 (1 / 2) (prob 0 [] []) ≤ 1) ∧
    (0 ≤ coldStartScore YN.n 1 (prob 0 [] []) ∧
      coldStartScore YN.n 1 (prob 0 [] []) ≤ 1) :=
  score_bounds 0 [] [] YN.n YN.n 1 (1 / 2) (Or.inr rfl) (by norm_num) (by norm_num)

/-- Claim C7, code bug: during the initial full scan an isolated cell's
factor is 0 (guard of lines 1766-1771), but the per-step incremental
update has no such guard (line 3906): when a newly converted cell is
isolated, its own sub-cursor row has `totalNeighbors = 0` and the script
raises `ZeroDivisionError`, modelled as `Except.error`. -/
theorem isolated_cell_update_divides_by_zero :
    initFactor isoInit 1 ⟨1, 0, 0, CState.nc⟩ = 0 ∧
    updatePairs isoRun 1 0 = Except.error () := by
  constructor
  · norm_num [initFactor, ball, withinDist, isoInit, List.filter]
  · norm_num [updatePairs, convertedPass, updateOver, updateFactorFor, ball, withinDist,
      isoRun, List.filter]

/-- Claim C4, code bug: the incremental update re-queries each touched
cell's neighbors from `adjacent_lyr` — the selection around the newly
converted cell — instead of from the full surface.  On `lineCells` the
update writes factor 1 for cell 2 (neighbors within the selection:
`{2, 3}`), while the fraction over cell 2's own full neighbor set
`{1, 2, 3}` is 1/2. -/
theorem incremental_update_restricted :
    updatePairs lineCells 1 0 = Except.ok [(2, 1), (3, 0), (4, 1)] ∧
    fullNbrFraction lineCells 1 ⟨2, 1, 0, CState.nc⟩ = 1 / 2 ∧
    ((1 : ℚ) ≠ 1 / 2) := by
  refine ⟨?_, ?_, by norm_num⟩
  · norm_num [updatePairs, convertedPass, updateOver, updateFactorFor, ball, withinDist,
      lineCells, List.filter, CState.isY]
  · norm_num [fullNbrFraction, ball, withinDist, lineCells, List.filter, CState.isY]

/-- Writing conversions back to the surface changes a row's state only
from `"N"` to `"Y (20xx)"`: a looked-up row that was not `"N"` before the
step is not `"N"` after it. -/
theorem stateOf_stepOnce_ne_nc (constOn : Bool) (key : Nat → ℚ) (quota t : Nat)
    (cells : List ACell) (id : Nat)
    (h : stateOf cells id ≠ some CState.nc) :
    stateOf (stepOnce constOn key quota t cells).1 id ≠ some CState.nc := by
  unfold stepOnce stateOf at *
  rw [List.find?_map]
  have hcomp :
      ((fun c => c.tfid == id) ∘ fun c =>
        if c.tfid ∈ (convertedIds constOn key quota cells).1
        then { c with state := CState.conv t } else c) =
      fun c : ACell => c.tfid == id := by
    funext c
    by_cases hc : c.tfid ∈ (convertedIds constOn key quota cells).1 <;> simp [hc]
  rw [hcomp]
  cases hfind : cells.find? (fun c => c.tfid == id) with
  | none => simp
  | some c =>
    rw [hfind] at h
    simp only [Option.map_some'] at h ⊢
    by_cases hc : c.tfid ∈ (convertedIds constOn key quota cells).1
    · simp [hc]
    · simp only [hc, if_false, ite_false]
      exact h

/-- Any number of further loop steps preserves a non-`"N"` state. -/
theorem stateOf_runSteps_ne_nc (constOn : Bool) (scoreAt : Nat → Nat → ℚ) (quota : Nat) :
    ∀ fuel t cells id, stateOf cells id ≠ some CState.nc →
      stateOf (runSteps constOn scoreAt quota t fuel cells).1 id ≠ some CState.nc := by
  intro fuel
  induction fuel with
  | zero =>
    intro t cells id h
    exact h
  | succ n ih =>
    intro t cells id h
    have h1 := stateOf_stepOnce_ne_nc constOn (scoreAt t) quota t cells id h
    simp only [runSteps]
    by_cases hab : (stepOnce constOn (scoreAt t) quota t cells).2
    · rw [if_pos hab]
      exact h1
    · rw [if_neg hab]
      exact ih (t + 1) _ id h1

/-- Splitting a run: the first `f` steps, then — unless the loop already
broke — the remaining `k` steps. -/
theorem runSteps_add (constOn : Bool) (scoreAt : Nat → Nat → ℚ) (quota : Nat) :
    ∀ f k t cells,
      runSteps constOn scoreAt quota t (f + k) cells =
        (if (runSteps constOn scoreAt quota t f cells).2
         then runSteps constOn scoreAt quota t f cells
         else runSteps constOn scoreAt quota (t + f) k
           (runSteps constOn scoreAt quota t f cells).1) := by
  intro f
  induction f with
  | zero =>
    intro k t cells
    simp [runSteps]
  | succ f ih =>
    intro k t cells
    rw [show f + 1 + k = (f + k) + 1 by omega]
    simp only [runSteps]
    by_cases hr : (stepOnce constOn (scoreAt t) quota t cells).2
    · simp [hr]
    · simp only [hr, Bool.false_eq_true, if_false, ite_false]
      rw [ih k (t + 1)]
      rw [show t + 1 + f = t + (f + 1) by omega]

/-- Claim C5: conversion state is monotonic — a cell whose state after
`t₁` steps of the simulation loop is `Converted` or `ExistingPriorToRun`
(anything but `"N"`) is still not `"N"` after any `t₂ ≥ t₁` steps, for
every constraint switch, per-step score assignment, quota and starting
surface. -/
theorem conversion_monotonic (constOn : Bool) (scoreAt : Nat → Nat → ℚ)
    (quota t0 : Nat) (cells : List ACell) (id : Nat) (t1 t2 : Nat)
    (hle : t1 ≤ t2)
    (h : stateOf (runSteps constOn scoreAt quota t0 t1 cells).1 id ≠ some CState.nc) :
    stateOf (runSteps constOn scoreAt quota t0 t2 cells).1 id ≠ some CState.nc := by
  obtain ⟨k, rfl⟩ := Nat.exists_eq_add_of_le hle
  rw [runSteps_add constOn scoreAt quota t1 k t0 cells]
  by_cases hab : (runSteps constOn scoreAt quota t0 t1 cells).2
  · rw [if_pos hab]
    exact h
  · rw [if_neg hab]
    exact stateOf_runSteps_ne_nc constOn scoreAt quota k (t0 + t1) _ id h

/-- Claim C5, witness: a cell with a pre-existing wind farm is still
non-`"N"` after one further step. -/
theorem conversion_monotonic_witness :
    stateOf (runSteps true (fun _ _ => 0) 1 0 1 [⟨1, 1, CState.existing⟩]).1 1 ≠
      some CState.nc :=
  conversion_monotonic true (fun _ _ => 0) 1 0 [⟨1, 1, CState.existing⟩] 1 0 1
    (by norm_num) (by simp [runSteps, stateOf, List.find?])

/-- With the constraints on, `convertedIds` is the conversion cursor run
over the top-quota rows of the sorted pool. -/
theorem convertedIds_constOn (key : Nat → ℚ) (quota : Nat) (cells : List ACell) :
    convertedIds true key quota cells =
      convertLoop ((sortDesc key (pool cells)).take quota) := rfl

/-- The conversion cursor converts every row of a window containing no
prohibited cell, and does not set `abortScript`. -/
theorem convertLoop_of_all_eligible (w : List ACell)
    (h : ∀ c ∈ w, c.constraintVal ≠ 0) :
    convertLoop w = (w.map (·.tfid), false) := by
  induction w with
  | nil => rfl
  | cons c cs ih =>
    unfold convertLoop
    rw [if_neg (h c (by simp))]
    rw [ih (fun d hd => h d (by simp [hd]))]
    simp

/-- The conversion cursor converts exactly the rows before the first
prohibited one and sets `abortScript` there. -/
theorem convertLoop_of_first_ineligible (a : List ACell) (c : ACell)
    (rest : List ACell) (ha : ∀ x ∈ a, x.constraintVal ≠ 0)
    (hc : c.constraintVal = 0) :
    convertLoop (a ++ c :: rest) = (a.map (·.tfid), true) := by
  induction a with
  | nil =>
    rw [List.nil_append]
    unfold convertLoop
    rw [if_pos hc]
    simp
  | cons x xs ih =>
    rw [List.cons_append]
    unfold convertLoop
    rw [if_neg (ha x (by simp))]
    rw [ih (fun d hd => ha d (by simp [hd]))]
    simp

/-- In a descending-sorted pool where every eligible cell scores strictly
above 0 and every prohibited cell scores exactly 0, the eligible cells
form a prefix and the prohibited ones the remaining suffix. -/
theorem sorted_elig_split (key : Nat → ℚ) :
    ∀ l : List ACell, SortedDesc key l →
      (∀ c ∈ l, (c.constraintVal ≠ 0 → 0 < key c.tfid) ∧
        (c.constraintVal = 0 → key c.tfid = 0)) →
      ∃ a b, l = a ++ b ∧ (∀ c ∈ a, c.constraintVal ≠ 0) ∧
        (∀ c ∈ b, c.constraintVal = 0) := by
  intro l
  induction l with
  | nil =>
    intro _ _
    exact ⟨[], [], rfl, by simp, by simp⟩
  | cons x xs ih =>
    intro hs hsc
    have hx := List.pairwise_cons.mp hs
    obtain ⟨a, b, heq, ha, hb⟩ :=
      ih hx.2 (fun c hc => hsc c (List.mem_cons_of_mem _ hc))
    by_cases hx0 : x.constraintVal = 0
    · have hkx : key x.tfid = 0 := (hsc x (List.mem_cons_self _ _)).2 hx0
      have hanil : a = [] := by
        cases a with
        | nil => rfl
        | cons y ys =>
          exfalso
          have hy : y ∈ xs := by
            rw [heq]
            simp
          have hypos : 0 < key y.tfid :=
            (hsc y (List.mem_cons_of_mem _ hy)).1 (ha y (by simp))
          have hle : key y.tfid ≤ key x.tfid := hx.1 y hy
          rw [hkx] at hle
          linarith
      refine ⟨[], x :: b, ?_, by simp, ?_⟩
      · rw [List.nil_append, heq, hanil, List.nil_append]
      · intro c hc
        rcases List.mem_cons.mp hc with h | h
        · rw [h]
          exact hx0
        · exact hb c h
    · refine ⟨x :: a, b, ?_, ?_, hb⟩
      · rw [heq, List.cons_append]
      · intro c hc
        rcases List.mem_cons.mp hc with h | h
        · rw [h]
          exact hx0
        · exact ha c h

/-- Counting eligible cells of an eligible prefix followed by a
prohibited suffix. -/
theorem eligibleCount_append_eq (a b : List ACell)
    (ha : ∀ c ∈ a, c.constraintVal ≠ 0) (hb : ∀ c ∈ b, c.constraintVal = 0) :
    eligibleCount (a ++ b) = a.length := by
  unfold eligibleCount
  rw [List.filter_append]
  rw [List.filter_eq_self.mpr (fun c hc => by simpa using ha c hc)]
  rw [List.filter_eq_nil_iff.mpr (fun c hc => by simpa using hb c hc)]
  simp

/-- Claim C3, amended: with the constraints on, provided every eligible
not-yet-converted cell has a strictly positive composite score and every
prohibited cell scores exactly 0 (the generic situation: `p > 0` always,
and a prohibited cell's score carries the factor `Constraint = 0`):
(1) when at least `quota` eligible cells remain, exactly `quota` cells
are converted and the loop does not abort; (2) when fewer than `quota`
eligible cells remain but at least `quota` unconverted cells exist, the
step converts exactly the remaining eligible cells and sets
`abortScript`; (3) a step that sets `abortScript` is the last one the
loop attempts: the run returns right after it, so no later step converts
anything. -/
theorem quota_allocation (key : Nat → ℚ) (quota : Nat) (cells : List ACell)
    (helig : ∀ c ∈ pool cells,
      (c.constraintVal ≠ 0 → 0 < key c.tfid) ∧ (c.constraintVal = 0 → key c.tfid = 0)) :
    (quota ≤ eligibleCount (pool cells) →
      (convertedIds true key quota cells).1.length = quota ∧
      (convertedIds true key quota cells).2 = false) ∧
    (eligibleCount (pool cells) < quota → quota ≤ (pool cells).length →
      (convertedIds true key quota cells).1.length = eligibleCount (pool cells) ∧
      (convertedIds true key quota cells).2 = true) ∧
    (∀ (scoreAt : Nat → Nat → ℚ) (fuel t : Nat) (cs : List ACell),
      (stepOnce true (scoreAt t) quota t cs).2 = true →
      runSteps true scoreAt quota t (fuel + 1) cs =
        ((stepOnce true (scoreAt t) quota t cs).1, true)) := by
  have hperm : (sortDesc key (pool cells)).Perm (pool cells) :=
    List.perm_insertionSort _ _
  have hsorted : SortedDesc key (sortDesc key (pool cells)) :=
    List.sorted_insertionSort _ _
  have hscS : ∀ c ∈ sortDesc key (pool cells),
      (c.constraintVal ≠ 0 → 0 < key c.tfid) ∧ (c.constraintVal = 0 → key c.tfid = 0) :=
    fun c hc => helig c (hperm.mem_iff.mp hc)
  obtain ⟨a, b, hab, ha, hb⟩ := sorted_elig_split key _ hsorted hscS
  have hE : eligibleCount (pool cells) = a.length := by
    have h1 : eligibleCount (pool cells) = eligibleCount (sortDesc key (pool cells)) := by
      unfold eligibleCount
      rw [← List.countP_eq_length_filter, ← List.countP_eq_length_filter]
      exact (hperm.countP_eq _).symm
    rw [h1, hab, eligibleCount_append_eq a b ha hb]
  have hlen : (pool cells).length = a.length + b.length := by
    rw [← hperm.length_eq, hab, List.length_append]
  refine ⟨?_, ?_, ?_⟩
  · intro hq
    rw [hE] at hq
    have hwin : (sortDesc key (pool cells)).take quota = a.take quota := by
      rw [hab, List.take_append_of_le_length hq]
    rw [convertedIds_constOn, hwin,
      convertLoop_of_all_eligible _ (fun c hc => ha c (List.take_subset _ _ hc))]
    constructor
    · simp only [List.length_map, List.length_take]
      omega
    · rfl
  · intro hlt hq2
    rw [hE] at hlt
    have hblen : 1 ≤ b.length := by omega
    obtain ⟨c, rest, rfl⟩ : ∃ c rest, b = c :: rest := by
      cases b with
      | nil => simp at hblen
      | cons c rest => exact ⟨c, rest, rfl⟩
    obtain ⟨m, hm⟩ : ∃ m, quota - a.length = m + 1 :=
      ⟨quota - a.length - 1, by omega⟩
    have hwin : (sortDesc key (pool cells)).take quota = a ++ (c :: rest.take m) := by
      rw [hab, List.take_append_eq_append_take,
        List.take_of_length_le (by omega : a.length ≤ quota), hm]
      simp
    rw [convertedIds_constOn, hwin,
      convertLoop_of_first_ineligible a c _ ha (hb c (by simp))]
    constructor
    · simp [hE]
    · rfl
  · intro scoreAt fuel t cs habort
    simp only [runSteps]
    rw [if_pos habort]

/-- Claim C3, counterexample: with the constraints and neighborhood
effects both on, an eligible cell whose neighborhood factor is 0 scores
0, tying with prohibited cells; in `exCells` (quota 2, two eligible
unconverted cells) the sorted window is cell 1, then the prohibited cell
2, and the cursor converts one cell and aborts — not the exactly-two the
claim requires, and the loop stops while an eligible cell remains. -/
theorem quota_tie_counterexample :
    eligibleCount (pool exCells) = 2 ∧
    (convertedIds true exKey 2 exCells).1.length = 1 ∧
    (convertedIds true exKey 2 exCells).2 = true := by
  refine ⟨by decide, by decide, by decide⟩

/-- Claim C3, witness: clause (1) of `quota_allocation` at a two-cell
pool with one eligible cell and quota 1. -/
theorem quota_allocation_witness :
    1 ≤ eligibleCount (pool [⟨1, 1, CState.nc⟩, ⟨2, 0, CState.nc⟩]) ∧
    ((convertedIds true (fun id => if id = 1 then 5 else 0) 1
        [⟨1, 1, CState.nc⟩, ⟨2, 0, CState.nc⟩]).1.length = 1 ∧
      (convertedIds true (fun id => if id = 1 then 5 else 0) 1
        [⟨1, 1, CState.nc⟩, ⟨2, 0, CState.nc⟩]).2 = false) :=
  ⟨by decide,
    (quota_allocation (fun id => if id = 1 then 5 else 0) 1
      [⟨1, 1, CState.nc⟩, ⟨2, 0, CState.nc⟩] (by decide)).1 (by decide)⟩

end WindCA
